import Mathlib

/-!
Verification development for the MCP discovery backend
(`src/backend/web_scraper.py`, `src/backend/enhanced_mcp_explorer.py`,
`src/backend/main.py`).  Parsed JSON/YAML documents are embedded as the
inductive `JVal`; Python dictionaries become association lists, Python
floats become rationals (all score constants are decimal literals, so the
additive score model is exact over `ℚ`), and Python exceptions become
`Option`/`Except` or explicit abort flags.  Each function is translated
from the source file named in its doc comment.
-/

mutual

/-- Embedding of a parsed JSON/YAML value (Python object after
`json.loads` / `yaml.safe_load`).  Objects keep their fields in key
order; the family is mutual (rather than nested through `List`) so
that every function over it is structural and kernel-reducible. -/
inductive JVal where
  | str : String → JVal
  | num : Int → JVal
  | bool : Bool → JVal
  | null : JVal
  | arr : JArr → JVal
  | obj : JObj → JVal

/-- Elements of an embedded JSON array. -/
inductive JArr where
  | nil : JArr
  | cons : JVal → JArr → JArr

/-- Fields of an embedded JSON object, in insertion order. -/
inductive JObj where
  | nil : JObj
  | cons : String → JVal → JObj → JObj

end

/-- The elements of an array as a Lean list. -/
def JArr.list : JArr → List JVal
  | .nil => []
  | .cons v t => v :: t.list

/-- The fields of an object as an association list. -/
def JObj.pairs : JObj → List (String × JVal)
  | .nil => []
  | .cons k v t => (k, v) :: t.pairs

/-- Build an array value from a Lean list. -/
def JArr.ofList : List JVal → JArr
  | [] => .nil
  | v :: t => .cons v (JArr.ofList t)

/-- Build an object value from an association list. -/
def JObj.ofList : List (String × JVal) → JObj
  | [] => .nil
  | (k, v) :: t => .cons k v (JObj.ofList t)

/-- Python `d.get(k)` on a dict: the value at the first matching key. -/
def jGet (fields : JObj) (k : String) : Option JVal :=
  (fields.pairs.find? (fun p => p.1 = k)).map (fun p => p.2)

/-- Python `d.get(k, default)`. -/
def jGetD (fields : JObj) (k : String) (d : JVal) : JVal :=
  (jGet fields k).getD d

/-- Python truthiness of a parsed value (`if x:`). -/
def pyTruthy : JVal → Bool
  | .str s => !s.data.isEmpty
  | .num n => n ≠ 0
  | .bool b => b
  | .null => false
  | .arr l => !l.list.isEmpty
  | .obj l => !l.pairs.isEmpty

/-- Python `len(x)`: defined for strings, lists and dicts; `none` models
the `TypeError` raised on other values. -/
def pyLen : JVal → Option Nat
  | .str s => some s.length
  | .arr l => some l.list.length
  | .obj l => some l.pairs.length
  | _ => none

/-- Python substring test `needle in hay`. -/
def strContains (hay needle : String) : Bool :=
  (List.range (hay.data.length + 1)).any
    (fun i => needle.data.isPrefixOf (hay.data.drop i))

/-- Python `s.lower()` (character-list based so that it reduces in the
kernel). -/
def lowerStr (s : String) : String := String.mk (s.data.map Char.toLower)

/-- Python `s.endswith(t)`. -/
def strEndsWith (s t : String) : Bool := t.data.isSuffixOf s.data

/-- Python `min(a, b)` (returns the first argument on ties). -/
def pyMin (a b : ℚ) : ℚ := if a ≤ b then a else b

/-- Score increment `if cond: score += q` rewritten as an added bonus. -/
def bonus (b : Bool) (q : ℚ) : ℚ := if b then q else 0

/-- web_scraper._is_valid_mcp_content, after the JSON-then-YAML parse
attempt: `none` models text that both parsers reject (the inner
`except` chain returns False), `some v` the parsed value.  The whole
body is wrapped in try/except returning False, so the check is total. -/
def isValidMcpContent : Option JVal → Bool
  | none => false
  | some (.obj fields) =>
    if (jGet fields "name").isNone || (jGet fields "tools").isNone then false
    else
      match jGet fields "tools" with
      | some (.arr tools) =>
        tools.list.all (fun t =>
          match t with
          | .obj tf => (jGet tf "name").isSome && (jGet tf "description").isSome
          | _ => false)
      | _ => false
  | some _ => false

/-- main.SmartMCPExplorer._is_valid_mcp_schema on a parsed mapping
(the argument is annotated `Dict` in the source).  Unlike the
web_scraper check it additionally rejects an empty `tools` list. -/
def isValidMcpSchema (fields : JObj) : Bool :=
  if (jGet fields "name").isNone || (jGet fields "tools").isNone then false
  else
    match jGetD fields "tools" (.arr .nil) with
    | .arr tools =>
      if tools.list.length = 0 then false
      else
        tools.list.all (fun t =>
          match t with
          | .obj tf => (jGet tf "name").isSome && (jGet tf "description").isSome
          | _ => false)
    | _ => false

/-- The C4 scenario document
`{"name":"weather-tool","version":"1.0.0","tools":[...]}`. -/
def weatherDoc : JVal :=
  .obj (.ofList
    [("name", .str "weather-tool"),
     ("version", .str "1.0.0"),
     ("tools", .arr (.ofList [
       .obj (.ofList
         [("name", .str "get_weather"),
          ("description", .str "Get the current weather for a city"),
          ("parameters", .obj (.ofList [("location", .str "string")]))])]))])

/-- A mapping with `name` present and `tools` an empty list. -/
def emptyToolsDoc : JObj :=
  .ofList [("name", .str "x"), ("tools", .arr .nil)]

/-- Character class `[a-zA-Z0-9._-]` of the name pattern in
MCPSchemaValidator.MCP_SCHEMA (enhanced_mcp_explorer.py). -/
def isNameChar (c : Char) : Bool :=
  c.isAlphanum || c = '.' || c = '_' || c = '-'

/-- Python `re.search` with an `^...$`-anchored pattern also matches a
string with one trailing newline (`$` matches before a final newline). -/
def stripTrailingNewline (l : List Char) : List Char :=
  if l.getLast? = some '\n' then l.dropLast else l

/-- The jsonschema pattern `^[a-zA-Z0-9._-]+$` for names. -/
def matchesNamePat (s : String) : Bool :=
  let t := stripTrailingNewline s.data
  !t.isEmpty && t.all isNameChar

/-- Python `s.split(sep)` for a one-character separator: the groups
between occurrences of `sep`. -/
def splitOnChar (sep : Char) : List Char → List (List Char)
  | [] => [[]]
  | c :: cs =>
    if c = sep then [] :: splitOnChar sep cs
    else
      match splitOnChar sep cs with
      | g :: gs => (c :: g) :: gs
      | [] => [[c]]

/-- The jsonschema pattern for versions, `\d+\.\d+\.\d+` anchored
(ASCII digits; Python `\d` also admits other Unicode digits, a corner
no claim depends on). -/
def matchesVersionPat (s : String) : Bool :=
  match splitOnChar '.' (stripTrailingNewline s.data) with
  | [a, b, c] =>
    !a.isEmpty && a.all Char.isDigit && !b.isEmpty && b.all Char.isDigit
      && !c.isEmpty && c.all Char.isDigit
  | _ => false

/-- The jsonschema `validate` call of
MCPSchemaValidator.validate_schema against `MCP_SCHEMA`
(enhanced_mcp_explorer.py lines 68-112): required `name`, `version`,
`tools`; property constraints checked only when the key is present. -/
def validateSchemaJson (v : JVal) : Bool :=
  match v with
  | .obj fields =>
    (jGet fields "name").isSome && (jGet fields "version").isSome
      && (jGet fields "tools").isSome
      && (match jGet fields "name" with
          | some (.str s) => matchesNamePat s
          | some _ => false
          | none => true)
      && (match jGet fields "version" with
          | some (.str s) => matchesVersionPat s
          | some _ => false
          | none => true)
      && (match jGet fields "description" with
          | some (.str _) => true
          | some _ => false
          | none => true)
      && (match jGet fields "tools" with
          | some (.arr ts) =>
            decide (1 ≤ ts.list.length) && ts.list.all (fun t =>
              match t with
              | .obj tf =>
                (match jGet tf "name" with
                 | some (.str s) => matchesNamePat s
                 | _ => false)
                && (match jGet tf "description" with
                    | some (.str s) => decide (10 ≤ s.length)
                    | _ => false)
                && (match jGet tf "parameters" with
                    | some (.obj _) => true
                    | _ => false)
              | _ => false)
          | some _ => false
          | none => true)
  | _ => false

/-- MCPSchemaValidator._validate_tools: every parameter name of every
tool must be a non-empty string.  Reached only after the jsonschema
pass, so `tools` is a list of objects with object `parameters` there;
any shape the Python code would raise on is mapped to `false` (the
raise is caught by validate_schema and yields an invalid verdict). -/
def validateToolsExtra (v : JVal) : Bool :=
  match v with
  | .obj fields =>
    match jGetD fields "tools" (.arr .nil) with
    | .arr ts =>
      ts.list.all (fun t =>
        match t with
        | .obj tf =>
          (match jGetD tf "parameters" (.obj .nil) with
           | .obj pf => pf.pairs.all (fun p => !p.1.data.isEmpty)
           | _ => false)
        | _ => false)
    | _ => false
  | _ => false

/-- MCPSchemaValidator.validate_schema, as the boolean verdict of its
`(is_valid, error)` pair: the jsonschema pass and the extra tool pass
must both succeed; any exception yields an invalid verdict. -/
def validateSchema (v : JVal) : Bool :=
  validateSchemaJson v && validateToolsExtra v

/-- Domain keyword table of
web_scraper._extract_domain_from_content (lines 725-736), in source
order. -/
def domainKeywordsWeb : List (String × List String) :=
  [("weather", ["weather", "climate", "forecast", "temperature"]),
   ("finance", ["finance", "trading", "stock", "crypto", "payment"]),
   ("travel", ["travel", "booking", "hotel", "flight", "airbnb"]),
   ("productivity", ["calendar", "task", "note", "email", "schedule"]),
   ("development", ["code", "git", "github", "deploy", "api"]),
   ("social", ["social", "twitter", "facebook", "instagram", "post"]),
   ("ecommerce", ["shop", "store", "product", "cart", "order"]),
   ("data", ["data", "analytics", "database", "query", "search"]),
   ("ai", ["ai", "ml", "llm", "gpt", "model"]),
   ("communication", ["chat", "message", "slack", "discord", "teams"])]

/-- Domain keyword table of EnhancedMCPExplorer._extract_domain
(enhanced_mcp_explorer.py lines 587-598), in source order. -/
def domainKeywordsEnh : List (String × List String) :=
  [("weather", ["weather", "climate", "forecast", "temperature", "meteorology"]),
   ("finance", ["finance", "trading", "stock", "crypto", "payment", "banking"]),
   ("travel", ["travel", "booking", "hotel", "flight", "airbnb", "tourism"]),
   ("productivity", ["calendar", "task", "note", "email", "schedule", "todo"]),
   ("development", ["code", "git", "github", "deploy", "api", "programming"]),
   ("social", ["social", "twitter", "facebook", "instagram", "post", "media"]),
   ("ecommerce", ["shop", "store", "product", "cart", "order", "commerce"]),
   ("data", ["data", "analytics", "database", "query", "search", "analysis"]),
   ("ai", ["ai", "ml", "llm", "gpt", "model", "intelligence"]),
   ("communication", ["chat", "message", "slack", "discord", "teams"])]

/-- The shared scan loop `for domain, keywords in domain_keywords.items():
if any(keyword in text for keyword in keywords): return domain`, with
default result `"general"`. -/
def scanDomains (text : String) : List (String × List String) → String
  | [] => "general"
  | (d, ks) :: rest =>
    if ks.any (fun k => strContains text k) then d else scanDomains text rest

/-- EnhancedMCPExplorer._extract_domain. -/
def extractDomain (name description : String) : String :=
  scanDomains (lowerStr (name ++ " " ++ description)) domainKeywordsEnh

/-- Python `str()` of a parsed value (used in the f-string that builds
the scan text); container repr quoting is approximated with ASCII
single quotes. -/
def pyQuote : String := String.singleton (Char.ofNat 39)

mutual

/-- Python `str()` of a parsed value (the f-string that builds the
domain scan text). -/
def pyFormat : JVal → String
  | .str s => s
  | .num n => toString n
  | .bool b => if b then "True" else "False"
  | .null => "None"
  | .arr l => "[" ++ pyReprArr l ++ "]"
  | .obj o => "\x7b" ++ pyReprObj o ++ "\x7d"

/-- Python `repr()` of a parsed value (how container elements render). -/
def pyRepr : JVal → String
  | .str s => pyQuote ++ s ++ pyQuote
  | .num n => toString n
  | .bool b => if b then "True" else "False"
  | .null => "None"
  | .arr l => "[" ++ pyReprArr l ++ "]"
  | .obj o => "\x7b" ++ pyReprObj o ++ "\x7d"

/-- Comma-separated rendering of list elements. -/
def pyReprArr : JArr → String
  | .nil => ""
  | .cons v .nil => pyRepr v
  | .cons v t => pyRepr v ++ ", " ++ pyReprArr t

/-- Comma-separated rendering of dict items. -/
def pyReprObj : JObj → String
  | .nil => ""
  | .cons k v .nil => pyQuote ++ k ++ pyQuote ++ ": " ++ pyRepr v
  | .cons k v t => pyQuote ++ k ++ pyQuote ++ ": " ++ pyRepr v ++ ", " ++ pyReprObj t

end

/-- web_scraper._extract_domain_from_content, after the parse attempt
(`none` models text both parsers reject; the enclosing try/except
returns the string general on any exception).  When the parsed mapping
holds an explicit `domain` key its value is returned as-is, whatever it
is; only otherwise is the keyword table scanned.  Non-mapping parses
reach an exception (`data['domain']` or `data.get`) and yield
general. -/
def extractDomainFromContent : Option JVal → JVal
  | none => .str "general"
  | some (.obj fields) =>
    match jGet fields "domain" with
    | some v => v
    | none =>
      .str (scanDomains
        (lowerStr (pyFormat (jGetD fields "name" (.str "")) ++ " "
          ++ pyFormat (jGetD fields "description" (.str ""))))
        domainKeywordsWeb)
  | some _ => .str "general"

/-- The per-tool loop of web_scraper._calculate_confidence_score
(`for tool in data.get('tools', [])`).  The boolean is `false` when an
iteration raised (`tool.get` on a non-dict element, or `len` on an
unsized description), aborting the loop with the score accumulated so
far. -/
def toolLoop : List JVal → ℚ → ℚ × Bool
  | [], s => (s, true)
  | .obj tf :: ts, s =>
    let s1 := s + bonus (pyTruthy (jGetD tf "parameters" .null)) (1/20)
    match pyLen (jGetD tf "description" (.str "")) with
    | none => (s1, false)
    | some m => toolLoop ts (s1 + bonus (decide (20 < m)) (1/20))
  | _ :: _, s => (s, false)

/-- Iterating the `tools` value itself: a list yields its elements; a
string yields characters and a dict its keys, both of which raise on
`tool.get` at the first element (so a non-empty one aborts, an empty
one completes the loop with no iterations); other values never reach
the loop because `len` already raised. -/
def toolIter : JVal → ℚ → ℚ × Bool
  | .arr ts, s => toolLoop ts.list s
  | .str str, s => if str.data.isEmpty then (s, true) else (s, false)
  | .obj o, s => if o.pairs.isEmpty then (s, true) else (s, false)
  | _, s => (s, false)

/-- The raw (pre-clamp) score of
web_scraper._calculate_confidence_score.  `none` models content both
parsers reject; any exception along the way (all increments sit inside
one try/except) leaves the score accumulated so far, which the final
`min` then clamps. -/
def webConfRaw : Option JVal → String → String → ℚ
  | none, _, _ => 1/2
  | some (.obj fields), url, title =>
    let s1 := 1/2 + bonus (pyTruthy (jGetD fields "description" .null)) (1/10)
      + bonus (pyTruthy (jGetD fields "version" .null)) (1/10)
    let tv := jGetD fields "tools" (.arr .nil)
    match pyLen tv with
    | none => s1
    | some n =>
      let s2 := s1 + bonus (decide (1 < n)) (1/10)
      let r := toolIter tv s2
      if r.2 then
        r.1 + bonus (strContains url "github.com") (1/10)
          + bonus (strContains url ".mcp.") (1/10)
          + bonus (strContains (lowerStr title) "mcp"
              || strContains (lowerStr title) "model context protocol") (1/10)
      else r.1
  | some _, _, _ => 1/2

/-- web_scraper._calculate_confidence_score: base 0.5, additive
bonuses, clamped by `min(score, 1.0)`.  The `description` argument of
the Python function is unused by its body (only the title is scanned)
and is kept for signature fidelity. -/
def webCalcConfidenceScore (pd : Option JVal) (url title _description : String) : ℚ :=
  pyMin (webConfRaw pd url title) 1

/-- EnhancedMCPExplorer._calculate_confidence_score.  `stars` stands
for `item.get('repository', {}).get('stargazers_count', 0)` and
`fileName` for `item.get('name', '')`, the only parts of the GitHub
item the function reads.  The function has no exception handler, so
`none` models the `TypeError` of `len` on an unsized `tools` value and
the `AttributeError` of `.get` on a non-dict schema. -/
def enhCalcConfidenceScore (schema : JVal) (stars : Int) (fileName : String) : Option ℚ :=
  match schema with
  | .obj fields =>
    let s1 := 1/2 + bonus (pyTruthy (jGetD fields "description" .null)) (1/10)
      + bonus (pyTruthy (jGetD fields "version" .null)) (1/10)
    match pyLen (jGetD fields "tools" (.arr .nil)) with
    | none => none
    | some n =>
      some (pyMin (s1 + bonus (decide (1 < n)) (1/10)
        + bonus (decide (10 < stars)) (1/10)
        + bonus (decide (100 < stars)) (1/10)
        + bonus (strContains fileName ".mcp.") (1/10)) 1)
  | _ => none

/-- Python `s.replace(pat, rep)` (all occurrences, left to right); the
fuel equals the input length, which bounds the number of steps.  Every
call site passes a non-empty pattern. -/
def replaceAllAux : Nat → List Char → List Char → List Char → List Char
  | 0, l, _, _ => l
  | _ + 1, [], _, _ => []
  | n + 1, c :: cs, pat, rep =>
    if pat.isPrefixOf (c :: cs) then
      rep ++ replaceAllAux n ((c :: cs).drop pat.length) pat rep
    else c :: replaceAllAux n cs pat rep

def strReplace (s pat rep : String) : String :=
  String.mk (replaceAllAux s.data.length s.data pat.data rep.data)

/-- Generic first-occurrence deduplication loop shared by both
`_deduplicate_results` implementations (a `seen` set of keys; a record
is kept iff its key is unseen).  Membership in a Lean list models
membership in the Python set. -/
def dedupAux (key : α → κ) [DecidableEq κ] (seen : List κ) : List α → List α
  | [] => []
  | x :: xs =>
    if key x ∈ seen then dedupAux key seen xs
    else x :: dedupAux key (key x :: seen) xs

/-- Tag pattern table of EnhancedMCPExplorer._extract_tags
(lines 612-623), in source order. -/
def tagPatternsEnh : List (String × List String) :=
  [("api", ["api", "rest", "endpoint", "service"]),
   ("ai", ["ai", "ml", "llm", "gpt", "model"]),
   ("web", ["web", "http", "url", "browser", "scraping"]),
   ("database", ["db", "database", "sql", "mongo", "redis"]),
   ("cloud", ["aws", "azure", "gcp", "cloud", "serverless"]),
   ("automation", ["auto", "script", "workflow", "cron"]),
   ("integration", ["integrate", "connect", "sync", "webhook"]),
   ("realtime", ["realtime", "live", "stream", "websocket"]),
   ("security", ["auth", "security", "encrypt", "token"]),
   ("monitoring", ["monitor", "log", "metric", "alert"])]

/-- EnhancedMCPExplorer._extract_tags.  The Python function collects
into a set and returns `list(tags)`; the model returns the tags
deduplicated in insertion order (no claim depends on list order).
Non-string tool names cannot reach this function (its callers validate
the schema first). -/
def extractTags (name description : String) (schema : JVal) : List String :=
  let text := lowerStr (name ++ " " ++ description)
  let base := (tagPatternsEnh.filter
    (fun p => p.2.any (fun pat => strContains text pat))).map (fun p => p.1)
  let tools := match schema with
    | .obj f =>
      match jGetD f "tools" (.arr .nil) with
      | .arr ts => ts.list
      | _ => []
    | _ => []
  let toolTags := tools.foldl (fun acc t =>
    let tn := match t with
      | .obj tf =>
        match jGetD tf "name" (.str "") with
        | .str s => lowerStr s
        | _ => ""
      | _ => ""
    let acc := if strContains tn "search" then acc ++ ["search"] else acc
    let acc := if ["fetch", "get", "retrieve"].any (fun w => strContains tn w) then
      acc ++ ["retrieval"] else acc
    let acc := if ["create", "add", "post"].any (fun w => strContains tn w) then
      acc ++ ["creation"] else acc
    if ["update", "edit", "modify"].any (fun w => strContains tn w) then
      acc ++ ["modification"] else acc) []
  dedupAux id [] (base ++ toolTags)

/-- web_scraper.ScrapedMCP (the dataclass). -/
structure ScrapedMCP where
  name : String
  description : String
  source_url : String
  content : String
  file_type : String
  domain : String
  tags : List String
  confidence_score : ℚ
  repository : Option String := none
  stars : Option Int := none

/-- enhanced_mcp_explorer.MCPSearchResult (the dataclass). -/
structure MCPSearchResult where
  name : String
  description : String
  source_url : String
  tags : List String
  domain : String
  validated : Bool
  schema : Option JVal := none
  file_type : String := "unknown"
  repository : Option String := none
  stars : Option Int := none
  source_platform : String := "unknown"
  confidence_score : ℚ := 0

/-- main.WebMCPResult (the pydantic model). -/
structure WebMCPResult where
  name : String
  description : String
  source_url : String
  tags : List String
  domain : String
  validated : Bool
  schema : Option JVal := none
  file_type : String
  repository : Option String := none
  stars : Option Int := none

/-- The conversion loop body of EnhancedMCPExplorer.search_web_mcps
(lines 199-243): re-parse the scraped content by file type (`parsed`
is the outcome; `.error` models a parse exception), run the strict
validator, and build the result record; on an exception the record is
kept with `validated=False`, no schema, and halved confidence. -/
def convertScraped (m : ScrapedMCP) (parsed : Except Unit JVal) : MCPSearchResult :=
  match parsed with
  | .ok schema =>
    let ok := validateSchema schema
    { name := m.name, description := m.description, source_url := m.source_url,
      tags := m.tags, domain := m.domain, validated := ok,
      schema := if ok then some schema else none, file_type := m.file_type,
      repository := m.repository, stars := m.stars,
      source_platform := "web_scraping", confidence_score := m.confidence_score }
  | .error _ =>
    { name := m.name, description := m.description, source_url := m.source_url,
      tags := m.tags, domain := m.domain, validated := false,
      schema := none, file_type := m.file_type,
      repository := m.repository, stars := m.stars,
      source_platform := "web_scraping", confidence_score := m.confidence_score * (1/2) }

/-- The parts of a GitHub code-search item that
_process_github_file_enhanced reads: file name, html url, repository
full name, star count (`stargazers_count`, default 0) and the optional
download url. -/
structure GithubItem where
  name : String
  htmlUrl : String
  repoFullName : String
  stars : Int := 0
  downloadUrl : Option String := none

/-- `schema.get('name', default)` restricted to string values; under
`validateSchema` the `name` key is present and a string, so the
non-string fallback is unreachable at the use site. -/
def schemaNameOr (schema : JVal) (dflt : String) : String :=
  match schema with
  | .obj f =>
    match jGet f "name" with
    | some (.str s) => s
    | _ => dflt
  | _ => dflt

/-- `schema.get('description', default)` restricted to string values
(under `validateSchema` a present description is a string). -/
def schemaDescOr (schema : JVal) (dflt : String) : String :=
  match schema with
  | .obj f =>
    match jGet f "description" with
    | some (.str s) => s
    | _ => dflt
  | _ => dflt

/-- EnhancedMCPExplorer._process_github_file_enhanced.  `fetched` is
the download outcome (`none`: missing url already returned, non-200 or
failed fetch), `parsed` the parse outcome of the extension branch
(`none`: parse error, or a file name with no recognized extension, in
which case the source leaves `schema = None`).  A falsy or invalid
schema yields no record; the enclosing try/except maps any raised
exception (in particular a scorer `TypeError`) to `None`. -/
def processGithubFileEnhanced (item : GithubItem) (fetched : Option String)
    (parsed : Option JVal) : Option MCPSearchResult :=
  match item.downloadUrl with
  | none => none
  | some _ =>
    match fetched with
    | none => none
    | some _ =>
      match parsed with
      | none => none
      | some schema =>
        if !pyTruthy schema then none
        else if !validateSchema schema then none
        else
          let name := schemaNameOr schema
            (strReplace (strReplace (strReplace item.name ".json" "") ".yaml" "") ".yml" "")
          let description := schemaDescOr schema ("MCP from " ++ item.repoFullName)
          match enhCalcConfidenceScore schema item.stars item.name with
          | none => none
          | some conf =>
            some { name := name, description := description,
                   source_url := item.htmlUrl,
                   tags := extractTags name description schema,
                   domain := extractDomain name description,
                   validated := true, schema := some schema,
                   file_type := if strEndsWith item.name ".json" then "json"
                     else if strEndsWith item.name ".yaml" || strEndsWith item.name ".yml"
                       then "yaml" else "unknown",
                   repository := some item.repoFullName,
                   stars := some item.stars,
                   source_platform := "github", confidence_score := conf }

/-- One entry of the known_sources table in
SmartMCPExplorer._search_known_repositories (main.py lines 344-366). -/
structure KnownSource where
  name : String
  url : String
  description : String
  domain : String
  tags : List String

def knownSources : List KnownSource :=
  [{ name := "OpenAI MCP Examples",
     url := "https://raw.githubusercontent.com/openai/mcp-examples/main/weather.mcp.json",
     description := "Weather MCP for getting current weather data",
     domain := "weather", tags := ["weather", "api", "openai"] },
   { name := "Anthropic MCP Collection",
     url := "https://raw.githubusercontent.com/anthropics/mcp-collection/main/travel.mcp.yaml",
     description := "Travel booking and management MCP",
     domain := "travel", tags := ["travel", "booking", "anthropic"] },
   { name := "Community MCP Hub",
     url := "https://raw.githubusercontent.com/mcp-hub/community/main/finance.mcp.json",
     description := "Financial data and trading MCP",
     domain := "finance", tags := ["finance", "trading", "community"] }]

/-- The domain-specific tool lists of
SmartMCPExplorer._generate_mock_schema (main.py lines 484-521). -/
def domainToolsTable : List (String × JVal) :=
  [("weather", .arr (.ofList [
     .obj (.ofList [("name", .str "get_current_weather"),
       ("description", .str "Get current weather for a location"),
       ("parameters", .obj (.ofList [("location", .str "string"), ("units", .str "string")]))]),
     .obj (.ofList [("name", .str "get_forecast"),
       ("description", .str "Get weather forecast"),
       ("parameters", .obj (.ofList [("location", .str "string"), ("days", .str "number")]))])])),
   ("travel", .arr (.ofList [
     .obj (.ofList [("name", .str "search_flights"),
       ("description", .str "Search for available flights"),
       ("parameters", .obj (.ofList [("origin", .str "string"), ("destination", .str "string"),
         ("date", .str "string")]))]),
     .obj (.ofList [("name", .str "book_accommodation"),
       ("description", .str "Book hotel or accommodation"),
       ("parameters", .obj (.ofList [("location", .str "string"), ("checkin", .str "string"),
         ("checkout", .str "string")]))])])),
   ("finance", .arr (.ofList [
     .obj (.ofList [("name", .str "get_stock_price"),
       ("description", .str "Get current stock price"),
       ("parameters", .obj (.ofList [("symbol", .str "string")]))]),
     .obj (.ofList [("name", .str "get_market_data"),
       ("description", .str "Get market analysis data"),
       ("parameters", .obj (.ofList [("market", .str "string"), ("timeframe", .str "string")]))])]))]

/-- SmartMCPExplorer._generate_mock_schema. -/
def generateMockSchema (name description domain : String) : JVal :=
  .obj (.ofList
    [("name", .str (strReplace (lowerStr name) " " ".")),
     ("version", .str "1.0.0"),
     ("description", .str description),
     ("tools",
       (jGetD (.ofList domainToolsTable) domain
         (.arr (.ofList [.obj (.ofList
           [("name", .str "generic_action"),
            ("description", .str ("Perform " ++ domain ++ " related action")),
            ("parameters", .obj (.ofList [("input", .str "string")]))])]))))])

/-- SmartMCPExplorer._search_known_repositories (main.py
lines 339-395): filter the known sources by the query, then emit a
`validated=True` record carrying a generated mock schema for each. -/
def searchKnownRepositories (query : String) (limit : Nat) : List WebMCPResult :=
  let ql := lowerStr query
  let matching := knownSources.filter (fun s =>
    strContains (lowerStr s.name) ql || strContains (lowerStr s.description) ql
      || s.tags.any (fun t => strContains t ql))
  (matching.take limit).map (fun s =>
    { name := s.name, description := s.description, source_url := s.url,
      tags := s.tags, domain := s.domain, validated := true,
      schema := some (generateMockSchema s.name s.description s.domain),
      file_type := "json", repository := some "community/mcp-hub", stars := some 42 })

/-- EnhancedMCPExplorer._deduplicate_results: identity key
`(result.name.lower(), result.source_url)`, first occurrence kept. -/
def dedupResults (l : List MCPSearchResult) : List MCPSearchResult :=
  dedupAux (fun r => (lowerStr r.name, r.source_url)) [] l

/-- web_scraper._deduplicate_results: the key is
`md5(content + source_url)`; the digest is modelled by the hashed
string itself (md5 treated as injective on the inputs at hand). -/
def webDedup (l : List ScrapedMCP) : List ScrapedMCP :=
  dedupAux (fun r => r.content ++ r.source_url) [] l

/-- Stable insertion step of a descending sort (ties keep the earlier
element first, as Python's stable `sorted` does). -/
def insertDescBy (keyf : α → ℚ) (x : α) : List α → List α
  | [] => [x]
  | y :: ys => if keyf y ≤ keyf x then x :: y :: ys else y :: insertDescBy keyf x ys

/-- Python `sorted(l, key=keyf, reverse=True)` (stable, descending). -/
def sortDescBy (keyf : α → ℚ) : List α → List α
  | [] => []
  | x :: xs => insertDescBy keyf x (sortDescBy keyf xs)

/-- The relevance_score closure of web_scraper._rank_results. -/
def relevanceScore (query : String) (r : ScrapedMCP) : ℚ :=
  r.confidence_score
    + bonus (strContains (lowerStr r.name) (lowerStr query)) (1/5)
    + bonus (strContains (lowerStr r.description) (lowerStr query)) (1/10)
    + bonus (decide (r.domain ∈ ["ai", "development", "productivity"])) (1/20)

/-- web_scraper._rank_results. -/
def rankResults (l : List ScrapedMCP) (query : String) : List ScrapedMCP :=
  sortDescBy (relevanceScore query) l

/-- The result-combination loop after `asyncio.gather(...,
return_exceptions=True)`: lists are concatenated, exceptions are
logged and skipped. -/
def combineGathered (outcomes : List (Except Unit (List α))) : List α :=
  outcomes.foldl (fun acc o => match o with | .ok l => acc ++ l | .error _ => acc) []

/-- MCPWebScraper.search_web_mcps (web_scraper.py lines 123-167)
after the per-platform search tasks have produced their outcomes:
combine (exceptions swallowed), deduplicate, rank, truncate. -/
def scraperSearchWebMcps (outcomes : List (Except Unit (List ScrapedMCP)))
    (query : String) (maxResults : Nat) : List ScrapedMCP :=
  (rankResults (webDedup (combineGathered outcomes)) query).take maxResults

/-- The try-body of EnhancedMCPExplorer.search_web_mcps: scraper call
(`scrape`, whose `.error` models the one awaited call that can raise
inside the try), per-record conversion, API fallback outcomes
(`gather` with swallowed exceptions), dedup, confidence sort,
truncation. -/
def pipelineEnhanced (scrape : Except Unit (List (ScrapedMCP × Except Unit JVal)))
    (api : List (Except Unit (List MCPSearchResult))) (limit : Nat) :
    Except Unit (List MCPSearchResult) :=
  match scrape with
  | .error e => .error e
  | .ok sl =>
    let converted := sl.map (fun p => convertScraped p.1 p.2)
    .ok ((sortDescBy (fun r => r.confidence_score)
      (dedupResults (converted ++ combineGathered api))).take limit)

/-- EnhancedMCPExplorer.search_web_mcps (lines 180-264).  The result
type still distinguishes a raised error from a returned list so that
propagation behaviour is expressible: a non-empty cached list is
returned directly (`if cached_results:` treats an empty hit as a
miss), and the whole body sits in a try/except whose handler returns
the empty list — so no branch produces `.error`. -/
def enhancedSearchWebMcps (cached : Option (List MCPSearchResult))
    (scrape : Except Unit (List (ScrapedMCP × Except Unit JVal)))
    (api : List (Except Unit (List MCPSearchResult))) (limit : Nat) :
    Except Unit (List MCPSearchResult) :=
  match cached with
  | some (x :: xs) => .ok (x :: xs)
  | _ =>
    match pipelineEnhanced scrape api limit with
    | .ok l => .ok l
    | .error _ => .ok []

/-- One in-memory cache entry of EnhancedMCPExplorer._cache_results:
stored data plus the absolute expiry instant
`datetime.now() + timedelta(seconds=ttl)` (times in seconds). -/
structure CacheEntry where
  data : List MCPSearchResult
  expires : Int

/-- EnhancedMCPExplorer._cache_results on the in-memory path
(`self.memory_cache[cache_key] = ...`, the dict update modelled by
prepending and dropping any older binding).  The default ttl is
3600 seconds. -/
def cacheResults (cache : List (String × CacheEntry)) (key : String)
    (results : List MCPSearchResult) (now ttl : Int) : List (String × CacheEntry) :=
  (key, ⟨results, now + ttl⟩) :: cache.filter (fun p => p.1 ≠ key)

/-- EnhancedMCPExplorer._get_cached_results on the in-memory path:
a present entry is returned while `expires > now` holds; otherwise it
is deleted (lazy eviction) and the lookup reports absent.  Returns the
lookup outcome together with the updated cache. -/
def getCachedResults (cache : List (String × CacheEntry)) (key : String)
    (now : Int) : Option (List MCPSearchResult) × List (String × CacheEntry) :=
  match cache.find? (fun p => p.1 = key) with
  | some p =>
    if now < p.2.expires then (some p.2.data, cache)
    else (none, cache.filter (fun q => q.1 ≠ key))
  | none => (none, cache)

/-- The SQLite cache freshness test of the /mcps/search endpoint
(main.py line 733): `created_at > datetime('now', '-1 hour')`. -/
def sqliteCacheFresh (created now : Int) : Bool := decide (now - 3600 < created)

/-- Domain keyword table of SmartMCPExplorer._extract_domain
(main.py lines 424-433), in source order: the web table's first eight
entries, without ai and communication. -/
def domainKeywordsMain : List (String × List String) :=
  [("weather", ["weather", "climate", "forecast", "temperature"]),
   ("finance", ["finance", "trading", "stock", "crypto", "payment"]),
   ("travel", ["travel", "booking", "hotel", "flight", "airbnb"]),
   ("productivity", ["calendar", "task", "note", "email", "schedule"]),
   ("development", ["code", "git", "github", "deploy", "api"]),
   ("social", ["social", "twitter", "facebook", "instagram", "post"]),
   ("ecommerce", ["shop", "store", "product", "cart", "order"]),
   ("data", ["data", "analytics", "database", "query", "search"])]

/-- SmartMCPExplorer._extract_domain. -/
def extractDomainMain (name description : String) : String :=
  scanDomains (lowerStr (name ++ " " ++ description)) domainKeywordsMain

/-- Tag pattern table of SmartMCPExplorer._extract_tags
(main.py lines 447-455), in source order. -/
def tagPatternsMain : List (String × List String) :=
  [("api", ["api", "rest", "endpoint"]),
   ("ai", ["ai", "ml", "llm", "gpt"]),
   ("web", ["web", "http", "url", "browser"]),
   ("database", ["db", "database", "sql", "mongo"]),
   ("cloud", ["aws", "azure", "gcp", "cloud"]),
   ("automation", ["auto", "script", "workflow"]),
   ("integration", ["integrate", "connect", "sync"])]

/-- SmartMCPExplorer._extract_tags.  Unlike the enhanced variant this
one is reachable with schemas that only passed the loose check, where
a tool name may be any value: `tool.get('name', '').lower()` raises on
a non-string name, which `none` models (the caller's except handler
then drops the candidate).  Non-dict tool elements cannot reach here
(the loose check requires mappings). -/
def extractTagsMain (name description : String) (schema : JVal) : Option (List String) :=
  let text := lowerStr (name ++ " " ++ description)
  let base := (tagPatternsMain.filter
    (fun p => p.2.any (fun pat => strContains text pat))).map (fun p => p.1)
  let tools := match schema with
    | .obj f =>
      match jGetD f "tools" (.arr .nil) with
      | .arr ts => ts.list
      | _ => []
    | _ => []
  let toolTags := tools.foldl (fun acc t =>
    match acc with
    | none => none
    | some acc =>
      match t with
      | .obj tf =>
        match jGetD tf "name" (.str "") with
        | .str s =>
          let tn := lowerStr s
          let acc := if strContains tn "search" then acc ++ ["search"] else acc
          let acc := if strContains tn "fetch" || strContains tn "get" then
            acc ++ ["retrieval"] else acc
          some (if strContains tn "create" || strContains tn "add" then
            acc ++ ["creation"] else acc)
        | _ => none
      | _ => none) (some [])
  match toolTags with
  | none => none
  | some tt => some (dedupAux id [] (base ++ tt))

/-- Coercion of a parsed value into the `str`-typed pydantic fields of
WebMCPResult (pydantic v1): strings pass through, ints and bools are
rendered by `str()`; `None` and containers fail model validation
(`none`, the raised ValidationError being caught by the caller). -/
def pydanticStr : JVal → Option String
  | .str s => some s
  | .num n => some (toString n)
  | .bool b => some (if b then "True" else "False")
  | _ => none

/-- SmartMCPExplorer._process_github_file (main.py lines 276-337), the
loose GitHub discovery path behind the /mcps/search endpoint.
`fetched` is the download outcome, `parsed` the parse outcome of the
extension branch (as in the enhanced variant).  After the falsy guard
the candidate only has to pass the loose `_is_valid_mcp_schema` check
— no version, pattern, description-length or parameters constraint —
and is then returned with `validated=True`.  The enclosing try/except
maps any raised exception (a non-string tool name in tag extraction, a
name or description value pydantic rejects) to `None`. -/
def processGithubFile (item : GithubItem) (fetched : Option String)
    (parsed : Option JVal) : Option WebMCPResult :=
  match item.downloadUrl with
  | none => none
  | some _ =>
    match fetched with
    | none => none
    | some _ =>
      match parsed with
      | none => none
      | some schema =>
        if !pyTruthy schema then none
        else
          match schema with
          | .obj f =>
            if !isValidMcpSchema f then none
            else
              let nameV := match jGet f "name" with
                | some v => pydanticStr v
                | none => some (strReplace (strReplace
                    (strReplace item.name ".json" "") ".yaml" "") ".yml" "")
              let descV := match jGet f "description" with
                | some v => pydanticStr v
                | none => some ("MCP from " ++ item.repoFullName)
              match nameV, descV with
              | some name, some description =>
                match extractTagsMain name description (.obj f) with
                | none => none
                | some tags =>
                  some { name := name, description := description,
                         source_url := item.htmlUrl, tags := tags,
                         domain := extractDomainMain name description,
                         validated := true, schema := some (.obj f),
                         file_type := if strEndsWith item.name ".json" then "json"
                           else if strEndsWith item.name ".yaml"
                               || strEndsWith item.name ".yml" then "yaml"
                             else "unknown",
                         repository := some item.repoFullName,
                         stars := some item.stars }
              | _, _ => none
          | _ => none

/-- EnhancedMCPExplorer._extract_domain_from_hf_item: a Hugging Face
item whose tags mention an ML modality is classified `ai`; otherwise
the standard extraction runs on the schema name and description. -/
def extractDomainFromHfItem (hfTags : List String) (schema : JVal) : String :=
  if hfTags.any (fun t => t ∈ ["nlp", "computer-vision", "audio", "tabular"]) then "ai"
  else extractDomain (schemaNameOr schema "") (schemaDescOr schema "")

/-- EnhancedMCPExplorer._extract_tags_from_hf_item: up to five item
tags plus the standard schema tags, set-deduplicated (modelled in
insertion order). -/
def extractTagsFromHfItem (hfTags : List String) (schema : JVal) : List String :=
  dedupAux id []
    (hfTags.take 5 ++ extractTags (schemaNameOr schema "") (schemaDescOr schema "") schema)

/-- The file names EnhancedMCPExplorer._process_huggingface_item
probes in order. -/
def hfMcpFiles : List String := ["mcp.json", "mcp.yaml", "schema.json", "tools.json"]

/-- The probe loop of EnhancedMCPExplorer._process_huggingface_item
(lines 455-494): each attempt pairs a file name with its fetch+parse
outcome (`none`: non-200, fetch error, or a parse error the loop
skips); the first truthy schema passing the strict validator is
returned as a `validated=True` record, anything else falls through to
the next attempt. -/
def processHuggingfaceLoop (repoId itemDescription : String) (hfTags : List String)
    (likes : Int) : List (String × Option JVal) → Option MCPSearchResult
  | [] => none
  | (fname, parsed) :: rest =>
    match parsed with
    | none => processHuggingfaceLoop repoId itemDescription hfTags likes rest
    | some schema =>
      if pyTruthy schema then
        if validateSchema schema then
          some { name := schemaNameOr schema
                   (String.mk ((splitOnChar '/' repoId.data).getLast?.getD [])),
                 description := schemaDescOr schema itemDescription,
                 source_url := "https://huggingface.co/" ++ repoId,
                 tags := extractTagsFromHfItem hfTags schema,
                 domain := extractDomainFromHfItem hfTags schema,
                 validated := true, schema := some schema,
                 file_type := String.mk ((splitOnChar '.' fname.data).getLast?.getD []),
                 repository := some repoId, stars := some likes,
                 source_platform := "huggingface", confidence_score := 4/5 }
        else processHuggingfaceLoop repoId itemDescription hfTags likes rest
      else processHuggingfaceLoop repoId itemDescription hfTags likes rest

/-- EnhancedMCPExplorer._process_huggingface_item: a missing or empty
repository id yields nothing (`if not repo_id`, absence folded into
the empty string); otherwise the fixed file list is probed with the
given outcomes. -/
def processHuggingfaceItem (repoId itemDescription : String) (hfTags : List String)
    (likes : Int) (outcomes : List (Option JVal)) : Option MCPSearchResult :=
  if repoId.data.isEmpty then none
  else processHuggingfaceLoop repoId itemDescription hfTags likes (hfMcpFiles.zip outcomes)

/-- A concrete result record used in closed instances. -/
def sampleResult : MCPSearchResult :=
  { name := "weather-tool", description := "sample", source_url := "http://a",
    tags := [], domain := "weather", validated := false }

/-- A document that passes the loose structural check of main.py but
violates the strict contract: no `version`, a five-character tool
description, no `parameters`. -/
def looseDoc : JVal :=
  .obj (.ofList
    [("name", .str "x"),
     ("tools", .arr (.ofList [
       .obj (.ofList [("name", .str "t"), ("description", .str "short")])]))])

/-- A GitHub code-search item feeding the loose discovery path. -/
def looseItem : GithubItem :=
  { name := "x.json", htmlUrl := "https://github.com/o/r/blob/main/x.json",
    repoFullName := "o/r", stars := 0,
    downloadUrl := some "https://raw.githubusercontent.com/o/r/main/x.json" }

lemma bonus_nonneg (b : Bool) {q : ℚ} (hq : 0 ≤ q) : 0 ≤ bonus b q := by
  unfold bonus; split <;> simp [hq]

lemma le_add_bonus (s : ℚ) (b : Bool) {q : ℚ} (hq : 0 ≤ q) : s ≤ s + bonus b q := by
  have := bonus_nonneg b hq; linarith

lemma toolLoop_fst_ge (ts : List JVal) (s : ℚ) : s ≤ (toolLoop ts s).1 := by
  induction ts generalizing s with
  | nil => simp [toolLoop]
  | cons t ts ih =>
    cases t with
    | obj tf =>
      simp only [toolLoop]
      have h1 : s ≤ s + bonus (pyTruthy (jGetD tf "parameters" .null)) (1/20) :=
        le_add_bonus _ _ (by norm_num)
      cases hl : pyLen (jGetD tf "description" (.str "")) with
      | none => simpa using h1
      | some m =>
        simp only []
        calc s ≤ s + bonus (pyTruthy (jGetD tf "parameters" .null)) (1/20) := h1
          _ ≤ s + bonus (pyTruthy (jGetD tf "parameters" .null)) (1/20)
              + bonus (decide (20 < m)) (1/20) := le_add_bonus _ _ (by norm_num)
          _ ≤ _ := ih _
    | str s' => simp [toolLoop]
    | num n => simp [toolLoop]
    | bool b => simp [toolLoop]
    | null => simp [toolLoop]
    | arr l => simp [toolLoop]

lemma toolIter_fst_ge (t : JVal) (s : ℚ) : s ≤ (toolIter t s).1 := by
  cases t with
  | arr ts => simpa [toolIter] using toolLoop_fst_ge ts.list s
  | str s' => simp only [toolIter]; split <;> simp
  | obj o => simp only [toolIter]; split <;> simp
  | num n => simp [toolIter]
  | bool b => simp [toolIter]
  | null => simp [toolIter]

lemma webConfRaw_ge (pd : Option JVal) (url title : String) :
    1/2 ≤ webConfRaw pd url title := by
  cases pd with
  | none => simp [webConfRaw]
  | some v =>
    cases v with
    | obj fields =>
      simp only [webConfRaw]
      have h1 : (1/2 : ℚ) ≤ 1/2
          + bonus (pyTruthy (jGetD fields "description" .null)) (1/10)
          + bonus (pyTruthy (jGetD fields "version" .null)) (1/10) := by
        have := bonus_nonneg (pyTruthy (jGetD fields "description" .null))
          (show (0:ℚ) ≤ 1/10 by norm_num)
        have := bonus_nonneg (pyTruthy (jGetD fields "version" .null))
          (show (0:ℚ) ≤ 1/10 by norm_num)
        linarith
      cases hl : pyLen (jGetD fields "tools" (.arr .nil)) with
      | none => simpa using h1
      | some n =>
        simp only []
        set s1 := 1/2 + bonus (pyTruthy (jGetD fields "description" .null)) (1/10)
          + bonus (pyTruthy (jGetD fields "version" .null)) (1/10) with hs1
        have h2 : s1 ≤ s1 + bonus (decide (1 < n)) (1/10) := le_add_bonus _ _ (by norm_num)
        have h3 := toolIter_fst_ge (jGetD fields "tools" (.arr .nil))
          (s1 + bonus (decide (1 < n)) (1/10))
        split
        · have h4 := le_add_bonus ((toolIter (jGetD fields "tools" (.arr .nil))
            (s1 + bonus (decide (1 < n)) (1/10))).1
              + bonus (strContains url "github.com") (1/10)
              + bonus (strContains url ".mcp.") (1/10))
            (strContains (lowerStr title) "mcp"
              || strContains (lowerStr title) "model context protocol")
            (show (0:ℚ) ≤ 1/10 by norm_num)
          have h5 := bonus_nonneg (strContains url "github.com")
            (show (0:ℚ) ≤ 1/10 by norm_num)
          have h6 := bonus_nonneg (strContains url ".mcp.")
            (show (0:ℚ) ≤ 1/10 by norm_num)
          linarith
        · linarith
    | str s' => simp [webConfRaw]
    | num n => simp [webConfRaw]
    | bool b => simp [webConfRaw]
    | null => simp [webConfRaw]
    | arr l => simp [webConfRaw]

lemma pyMin_le_right (a b : ℚ) : pyMin a b ≤ b := by
  unfold pyMin; split <;> linarith

lemma le_pyMin {a b c : ℚ} (ha : c ≤ a) (hb : c ≤ b) : c ≤ pyMin a b := by
  unfold pyMin; split <;> assumption

lemma webCalc_ge_half (pd : Option JVal) (url title description : String) :
    1/2 ≤ webCalcConfidenceScore pd url title description :=
  le_pyMin (webConfRaw_ge pd url title) (by norm_num)

lemma webCalc_le_one (pd : Option JVal) (url title description : String) :
    webCalcConfidenceScore pd url title description ≤ 1 :=
  pyMin_le_right _ _

lemma enhCalc_bounds (schema : JVal) (stars : Int) (fileName : String) (q : ℚ)
    (h : enhCalcConfidenceScore schema stars fileName = some q) :
    1/2 ≤ q ∧ q ≤ 1 := by
  cases schema with
  | obj fields =>
    simp only [enhCalcConfidenceScore] at h
    cases hl : pyLen (jGetD fields "tools" (.arr .nil)) with
    | none => rw [hl] at h; simp at h
    | some n =>
      rw [hl] at h
      simp only [Option.some_inj] at h
      subst h
      refine ⟨le_pyMin ?_ (by norm_num), pyMin_le_right _ _⟩
      have b1 := bonus_nonneg (pyTruthy (jGetD fields "description" .null))
        (show (0:ℚ) ≤ 1/10 by norm_num)
      have b2 := bonus_nonneg (pyTruthy (jGetD fields "version" .null))
        (show (0:ℚ) ≤ 1/10 by norm_num)
      have b3 := bonus_nonneg (decide (1 < n)) (show (0:ℚ) ≤ 1/10 by norm_num)
      have b4 := bonus_nonneg (decide (10 < stars)) (show (0:ℚ) ≤ 1/10 by norm_num)
      have b5 := bonus_nonneg (decide (100 < stars)) (show (0:ℚ) ≤ 1/10 by norm_num)
      have b6 := bonus_nonneg (strContains fileName ".mcp.") (show (0:ℚ) ≤ 1/10 by norm_num)
      linarith
  | str s => simp [enhCalcConfidenceScore] at h
  | num n => simp [enhCalcConfidenceScore] at h
  | bool b => simp [enhCalcConfidenceScore] at h
  | null => simp [enhCalcConfidenceScore] at h
  | arr l => simp [enhCalcConfidenceScore] at h

lemma dedupAux_sublist (key : α → κ) [DecidableEq κ] (seen : List κ) (l : List α) :
    (dedupAux key seen l).Sublist l := by
  induction l generalizing seen with
  | nil => simp [dedupAux]
  | cons x xs ih =>
    simp only [dedupAux]
    split
    · exact List.Sublist.cons x (ih seen)
    · exact List.Sublist.cons₂ x (ih (key x :: seen))

lemma dedupAux_key_not_seen (key : α → κ) [DecidableEq κ] (seen : List κ)
    (l : List α) : ∀ x ∈ dedupAux key seen l, key x ∉ seen := by
  induction l generalizing seen with
  | nil => simp [dedupAux]
  | cons y ys ih =>
    intro x hx
    simp only [dedupAux] at hx
    by_cases hy : key y ∈ seen
    · rw [if_pos hy] at hx
      exact ih seen x hx
    · rw [if_neg hy] at hx
      rcases List.mem_cons.mp hx with rfl | hx
      · exact hy
      · have := ih (key y :: seen) x hx
        intro hn
        exact this (List.mem_cons_of_mem _ hn)

lemma dedupAux_nodup_keys (key : α → κ) [DecidableEq κ] (seen : List κ)
    (l : List α) : ((dedupAux key seen l).map key).Nodup := by
  induction l generalizing seen with
  | nil => simp [dedupAux]
  | cons y ys ih =>
    simp only [dedupAux]
    split
    · exact ih seen
    · simp only [List.map_cons, List.nodup_cons]
      refine ⟨?_, ih (key y :: seen)⟩
      intro hmem
      rcases List.mem_map.mp hmem with ⟨x, hx, hk⟩
      exact dedupAux_key_not_seen key _ _ x hx (by simp [hk])

lemma dedupAux_covers (key : α → κ) [DecidableEq κ] (seen : List κ) (l : List α) :
    ∀ x ∈ l, key x ∉ seen → ∃ y ∈ dedupAux key seen l, key y = key x := by
  induction l generalizing seen with
  | nil => simp
  | cons z zs ih =>
    intro x hx hseen
    simp only [dedupAux]
    rcases List.mem_cons.mp hx with rfl | hx
    · rw [if_neg hseen]
      exact ⟨x, by simp⟩
    · by_cases hz : key z ∈ seen
      · rw [if_pos hz]
        exact ih seen x hx hseen
      · rw [if_neg hz]
        by_cases hzx : key x = key z
        · exact ⟨z, by simp, hzx.symm⟩
        · rcases ih (key z :: seen) x hx (by simp [hseen, hzx]) with ⟨y, hy, hk⟩
          exact ⟨y, List.mem_cons_of_mem _ hy, hk⟩

lemma dedupAux_find? (key : α → κ) [DecidableEq κ] (seen : List κ) (l : List α) :
    ∀ y ∈ dedupAux key seen l,
      l.find? (fun z => decide (key z = key y)) = some y := by
  induction l generalizing seen with
  | nil => simp [dedupAux]
  | cons x xs ih =>
    intro y hy
    simp only [dedupAux] at hy
    by_cases hseen : key x ∈ seen
    · rw [if_pos hseen] at hy
      have hne : ¬ (key x = key y) := by
        intro he
        exact dedupAux_key_not_seen key seen xs y hy (he ▸ hseen)
      rw [List.find?_cons_of_neg _ (by simpa using hne)]
      exact ih seen y hy
    · rw [if_neg hseen] at hy
      rcases List.mem_cons.mp hy with rfl | hy
      · rw [List.find?_cons_of_pos _ (by simp)]
      · have hne : ¬ (key x = key y) := by
          intro he
          exact dedupAux_key_not_seen key (key x :: seen) xs y hy (by simp [he])
        rw [List.find?_cons_of_neg _ (by simpa using hne)]
        exact ih (key x :: seen) y hy

/-- The first-match semantics the spec describes for the domain scan:
the first table entry any of whose keywords occurs in the text, with
default `"general"`. -/
def specFirstMatchDomain (text : String) (table : List (String × List String)) : String :=
  match table.find? (fun p => p.2.any (fun k => strContains text k)) with
  | some p => p.1
  | none => "general"

lemma scanDomains_eq_firstMatch (table : List (String × List String)) (text : String) :
    scanDomains text table = specFirstMatchDomain text table := by
  induction table with
  | nil => simp [scanDomains, specFirstMatchDomain]
  | cons p rest ih =>
    obtain ⟨d, ks⟩ := p
    simp only [scanDomains, specFirstMatchDomain, List.find?_cons]
    by_cases h : ks.any (fun k => strContains text k)
    · simp [h]
    · simp only [h, if_neg]
      simpa [specFirstMatchDomain] using ih

lemma combineGathered_aux (outcomes : List (Except Unit (List α)))
    (h : ∀ o ∈ outcomes, o = .error ()) (acc : List α) :
    outcomes.foldl (fun acc o => match o with | .ok l => acc ++ l | .error _ => acc) acc
      = acc := by
  induction outcomes generalizing acc with
  | nil => rfl
  | cons o os ih =>
    have ho := h o (by simp)
    subst ho
    simp only [List.foldl_cons]
    exact ih (fun x hx => h x (List.mem_cons_of_mem _ hx)) acc

lemma combineGathered_all_error (outcomes : List (Except Unit (List α)))
    (h : ∀ o ∈ outcomes, o = .error ()) : combineGathered outcomes = [] :=
  combineGathered_aux outcomes h []

lemma find?_filter_ne_none (l : List (String × CacheEntry)) (key : String) :
    (l.filter (fun q => q.1 ≠ key)).find? (fun p => decide (p.1 = key)) = none := by
  rw [List.find?_eq_none]
  intro p hp
  have := (List.mem_filter.mp hp).2
  simpa using this

/-- A record pair with the same identity key (`x` lower-cased, same
url) but different descriptions; the first one in input order. -/
def dupFirst : MCPSearchResult :=
  { name := "X", description := "first description", source_url := "http://a",
    tags := [], domain := "general", validated := false }

/-- The later duplicate of `dupFirst` (same key, other description). -/
def dupSecond : MCPSearchResult :=
  { name := "x", description := "second description", source_url := "http://a",
    tags := [], domain := "general", validated := false }

/-- A scraped record; `scrapedB` shares its name and source url but
has different content and description. -/
def scrapedA : ScrapedMCP :=
  { name := "x", description := "desc one", source_url := "http://a",
    content := "contentA", file_type := "json", domain := "general",
    tags := [], confidence_score := 1/2 }

/-- Same `(lower(name), source_url)` as `scrapedA`, different content
and description. -/
def scrapedB : ScrapedMCP :=
  { name := "x", description := "desc two", source_url := "http://a",
    content := "contentB", file_type := "json", domain := "general",
    tags := [], confidence_score := 1/2 }

/-- A scraped record for instantiating the conversion step. -/
def sampleScraped : ScrapedMCP :=
  { name := "weather-tool", description := "sample", source_url := "http://a",
    content := "c", file_type := "json", domain := "weather",
    tags := [], confidence_score := 7/10 }

/-- Claim C1 as stated is false on web_scraper._is_valid_mcp_content:
the mapping with `name` present and `tools = []` is accepted (the
per-tool loop over an empty list never fails), while the claim demands
rejection for every empty `tools` sequence. -/
theorem c1_empty_tools_accepted :
    isValidMcpContent (some (.obj emptyToolsDoc)) = true := by decide

/-- Claim C1 (amended): for a parsed mapping, both classifiers reject
when `tools` is absent or not a sequence; when `tools` is an empty
sequence, main._is_valid_mcp_schema rejects but
web_scraper._is_valid_mcp_content accepts exactly when `name` is
present. -/
theorem c1_tools_rejection (fields : JObj) :
    (jGet fields "tools" = none →
      isValidMcpContent (some (.obj fields)) = false ∧ isValidMcpSchema fields = false)
    ∧ (∀ t, jGet fields "tools" = some t → (∀ l, t ≠ JVal.arr l) →
      isValidMcpContent (some (.obj fields)) = false ∧ isValidMcpSchema fields = false)
    ∧ (jGet fields "tools" = some (.arr .nil) →
      isValidMcpSchema fields = false
        ∧ isValidMcpContent (some (.obj fields)) = (jGet fields "name").isSome) := by
  refine ⟨?_, ?_, ?_⟩
  · intro h
    constructor
    · simp [isValidMcpContent, h]
    · simp [isValidMcpSchema, h]
  · intro t ht hnotarr
    constructor
    · simp only [isValidMcpContent, ht, Option.isNone_some, Bool.or_false]
      cases t with
      | arr l => exact absurd rfl (hnotarr l)
      | str s => simp
      | num n => simp
      | bool b => simp
      | null => simp
      | obj o => simp
    · simp only [isValidMcpSchema, jGetD, ht, Option.isNone_some, Bool.or_false,
        Option.getD_some]
      cases t with
      | arr l => exact absurd rfl (hnotarr l)
      | str s => simp
      | num n => simp
      | bool b => simp
      | null => simp
      | obj o => simp
  · intro ht
    constructor
    · simp only [isValidMcpSchema, jGetD, ht, Option.isNone_some, Bool.or_false,
        Option.getD_some, JArr.list, List.length_nil]
      simp
    · simp only [isValidMcpContent, ht, Option.isNone_some, Bool.or_false,
        JArr.list, List.all_nil]
      cases jGet fields "name" <;> simp

/-- Claim C1 witness: the amended theorem at a mapping whose `tools`
value is the non-sequence string `"no"`. -/
theorem c1_tools_rejection_witness :
    isValidMcpContent (some (.obj (.ofList
      [("name", JVal.str "x"), ("tools", JVal.str "no")]))) = false
    ∧ isValidMcpSchema (.ofList
      [("name", JVal.str "x"), ("tools", JVal.str "no")]) = false :=
  (c1_tools_rejection (.ofList [("name", JVal.str "x"), ("tools", JVal.str "no")])).2.1
    (JVal.str "no") rfl (fun _ h => JVal.noConfusion h)

/-- Claim C2 as stated is false: main.py _process_github_file (the
SmartMCPExplorer GitHub discovery path behind /mcps/search) emits a
`validated=True` record for this document, which only passes the loose
structural check — it has no `version`, a five-character tool
description and no `parameters`, so its schema violates the strict MCP
shape contract. -/
theorem c2_loose_validation_counterexample :
    ∃ r, processGithubFile looseItem (some "content") (some looseDoc) = some r
      ∧ r.validated = true
      ∧ r.schema = some looseDoc
      ∧ validateSchema looseDoc = false := by
  refine ⟨_, rfl, rfl, rfl, by decide⟩

/-- Claim C2 (amended): every `validated = true` record from any
search/discovery path carries a non-null schema.  On the enhanced
explorer paths — the scraped-result conversion, the enhanced GitHub
file processing, the Hugging Face probe — and on main.py's
known-repositories path (whose generated mock schemas are
contract-valid) that schema moreover satisfies the strict MCP shape
contract; on main.py's loose GitHub path `_process_github_file` the
schema is only guaranteed to pass the loose structural check
`_is_valid_mcp_schema`. -/
theorem c2_validated_implies_contract :
    (∀ (m : ScrapedMCP) (p : Except Unit JVal),
      (convertScraped m p).validated = true →
        ∃ s, (convertScraped m p).schema = some s ∧ validateSchema s = true)
    ∧ (∀ (item : GithubItem) (fetched : Option String) (parsed : Option JVal)
        (r : MCPSearchResult), processGithubFileEnhanced item fetched parsed = some r →
        r.validated = true ∧ ∃ s, r.schema = some s ∧ validateSchema s = true)
    ∧ (∀ (query : String) (limit : Nat) (r : WebMCPResult),
        r ∈ searchKnownRepositories query limit →
        r.validated = true ∧ ∃ s, r.schema = some s ∧ validateSchema s = true)
    ∧ (∀ (repoId itemDescription : String) (hfTags : List String) (likes : Int)
        (attempts : List (String × Option JVal)) (r : MCPSearchResult),
        processHuggingfaceLoop repoId itemDescription hfTags likes attempts = some r →
        r.validated = true ∧ ∃ s, r.schema = some s ∧ validateSchema s = true)
    ∧ (∀ (item : GithubItem) (fetched : Option String) (parsed : Option JVal)
        (r : WebMCPResult), processGithubFile item fetched parsed = some r →
        r.validated = true ∧ ∃ f, r.schema = some (.obj f) ∧ isValidMcpSchema f = true) := by
  refine ⟨?_, ?_, ?_, ?_, ?_⟩
  · intro m p hval
    cases p with
    | error e => simp [convertScraped] at hval
    | ok schema =>
      simp only [convertScraped] at hval ⊢
      exact ⟨schema, by simp [hval], hval⟩
  · intro item fetched parsed r h
    simp only [processGithubFileEnhanced] at h
    split at h
    · exact Option.noConfusion h
    · split at h
      · exact Option.noConfusion h
      · split at h
        · exact Option.noConfusion h
        · rename_i schema
          split at h
          · exact Option.noConfusion h
          · split at h
            · exact Option.noConfusion h
            · rename_i hvalid
              split at h
              · exact Option.noConfusion h
              · injection h with h
                subst h
                refine ⟨rfl, schema, rfl, ?_⟩
                simpa using hvalid
  · intro query limit r hr
    simp only [searchKnownRepositories, List.mem_map] at hr
    rcases hr with ⟨s, hs, rfl⟩
    have hs2 : s ∈ knownSources :=
      List.mem_of_mem_filter (List.mem_of_mem_take hs)
    refine ⟨rfl, generateMockSchema s.name s.description s.domain, rfl, ?_⟩
    simp only [knownSources, List.mem_cons, List.not_mem_nil, or_false] at hs2
    rcases hs2 with rfl | rfl | rfl <;> decide
  · intro repoId itemDescription hfTags likes attempts
    induction attempts with
    | nil => intro r h; exact Option.noConfusion h
    | cons a rest ih =>
      intro r h
      obtain ⟨fname, parsed⟩ := a
      cases parsed with
      | none =>
        simp only [processHuggingfaceLoop] at h
        exact ih r h
      | some schema =>
        simp only [processHuggingfaceLoop] at h
        by_cases ht : pyTruthy schema = true
        · rw [if_pos ht] at h
          by_cases hv : validateSchema schema = true
          · rw [if_pos hv] at h
            injection h with h
            subst h
            exact ⟨rfl, schema, rfl, hv⟩
          · rw [if_neg hv] at h
            exact ih r h
        · rw [if_neg ht] at h
          exact ih r h
  · intro item fetched parsed r h
    simp only [processGithubFile] at h
    repeat' (split at h <;> try exact Option.noConfusion h)
    all_goals injection h with h
    all_goals subst h
    all_goals exact ⟨rfl, _, rfl, by simp_all⟩

/-- Claim C2 witness: the conversion of a scraped record whose content
parses to the C4 weather document is validated and carries a
contract-satisfying schema. -/
theorem c2_validated_witness :
    ∃ s, (convertScraped sampleScraped (.ok weatherDoc)).schema = some s
      ∧ validateSchema s = true :=
  c2_validated_implies_contract.1 sampleScraped (.ok weatherDoc) (by decide)

/-- Claim C3: the web scorer is total and bounded in the closed unit
interval for every parse outcome (including failed parses and non-dict
values) and every url/title/description; the enhanced scorer is
bounded whenever it returns (its argument is a schema dict, not raw
content). -/
theorem c3_score_bounds :
    (∀ (pd : Option JVal) (url title description : String),
      0 ≤ webCalcConfidenceScore pd url title description
        ∧ webCalcConfidenceScore pd url title description ≤ 1)
    ∧ (∀ (schema : JVal) (stars : Int) (fileName : String) (q : ℚ),
      enhCalcConfidenceScore schema stars fileName = some q → 0 ≤ q ∧ q ≤ 1) := by
  constructor
  · intro pd url title description
    exact ⟨le_trans (by norm_num) (webCalc_ge_half pd url title description),
      webCalc_le_one pd url title description⟩
  · intro schema stars fileName q h
    have hb := enhCalc_bounds schema stars fileName q h
    exact ⟨le_trans (by norm_num) hb.1, hb.2⟩

/-- Claim C3 witness: the enhanced scorer on the weather document
yields 3/5, which the theorem places in the unit interval. -/
theorem c3_score_bounds_witness : 0 ≤ (3/5 : ℚ) ∧ (3/5 : ℚ) ≤ 1 :=
  c3_score_bounds.2 weatherDoc 0 "" (3/5) (by with_unfolding_all decide)

/-- Claim C4: the weather scenario document is accepted by the
classifier, and with no url/title bonuses the scorer returns exactly
0.70 = 0.5 + 0.1 (version) + 0.05 (tool parameters) + 0.05 (tool
description longer than 20 characters). -/
theorem c4_weather_scenario :
    isValidMcpContent (some weatherDoc) = true
      ∧ webCalcConfidenceScore (some weatherDoc) "" "" "" = 7/10 := by
  constructor
  · decide
  · with_unfolding_all decide

/-- Claim C5 as stated is false on web_scraper._deduplicate_results:
these two records agree on `(lower(name), source_url)` and differ in
description, yet both survive, because that implementation keys on
`md5(content + source_url)` and their contents differ. -/
theorem c5_web_dedup_counterexample :
    lowerStr scrapedA.name = lowerStr scrapedB.name
    ∧ scrapedA.source_url = scrapedB.source_url
    ∧ scrapedA.description ≠ scrapedB.description
    ∧ webDedup [scrapedA, scrapedB] = [scrapedA, scrapedB] := by
  refine ⟨rfl, rfl, by decide, rfl⟩

/-- Claim C5 (amended): the enhanced explorer deduplication keeps
exactly the first occurrence of each `(lower(name), source_url)` key
(sublist of the input, pairwise distinct keys, every input key
represented, each survivor the first input record with its key), and
in particular of two same-key records with different descriptions only
the first survives; the web scraper deduplication has the same
first-occurrence discipline but for the key `content + source_url`. -/
theorem c5_dedup_first_occurrence :
    (∀ l : List MCPSearchResult,
      (dedupResults l).Sublist l
      ∧ ((dedupResults l).map (fun r => (lowerStr r.name, r.source_url))).Nodup
      ∧ (∀ r ∈ l, ∃ r2 ∈ dedupResults l,
          (lowerStr r2.name, r2.source_url) = (lowerStr r.name, r.source_url))
      ∧ (∀ r ∈ dedupResults l,
          l.find? (fun z => decide ((lowerStr z.name, z.source_url)
            = (lowerStr r.name, r.source_url))) = some r))
    ∧ dedupResults [dupFirst, dupSecond] = [dupFirst]
    ∧ (∀ l : List ScrapedMCP,
      (webDedup l).Sublist l
      ∧ (∀ r ∈ webDedup l,
          l.find? (fun z => decide (z.content ++ z.source_url
            = r.content ++ r.source_url)) = some r)) := by
  refine ⟨?_, rfl, ?_⟩
  · intro l
    refine ⟨dedupAux_sublist _ [] l, dedupAux_nodup_keys _ [] l, ?_, ?_⟩
    · intro r hr
      exact dedupAux_covers _ [] l r hr (by simp)
    · intro r hr
      exact dedupAux_find? _ [] l r hr
  · intro l
    exact ⟨dedupAux_sublist _ [] l, fun r hr => dedupAux_find? _ [] l r hr⟩

/-- Claim C5 witness: on the two-record input the surviving record is
the first input record with the shared key. -/
theorem c5_dedup_witness :
    List.find? (fun z => decide ((lowerStr z.name, z.source_url)
      = (lowerStr dupFirst.name, dupFirst.source_url))) [dupFirst, dupSecond]
      = some dupFirst :=
  (c5_dedup_first_occurrence.1 [dupFirst, dupSecond]).2.2.2 dupFirst
    (by simp [show dedupResults [dupFirst, dupSecond] = [dupFirst] from rfl])

/-- The domain table scan is first-match with default general: the
scan loop equals the find-first-matching-entry specification, on both
keyword tables; concretely a text matching both the weather and the
finance tables classifies as weather (scanned first), through the
enhanced extractor and through the web-scraper content path alike, and
a text matching nothing yields general (claim C6). -/
theorem c6_domain_first_match :
    (∀ name description, extractDomain name description
      = specFirstMatchDomain (lowerStr (name ++ " " ++ description)) domainKeywordsEnh)
    ∧ (∀ text, scanDomains text domainKeywordsWeb
      = specFirstMatchDomain text domainKeywordsWeb)
    ∧ extractDomain "forecast trading" "" = "weather"
    ∧ extractDomainFromContent (some (.obj (.ofList
        [("name", JVal.str "forecast trading")]))) = .str "weather"
    ∧ extractDomain "zzz qqq" "" = "general" := by
  refine ⟨?_, ?_, by decide, by rfl, by decide⟩
  · intro name description
    exact scanDomains_eq_firstMatch _ _
  · intro text
    exact scanDomains_eq_firstMatch _ _

/-- Claim C7 as stated is false: with no cache entry and every adapter
outcome an exception, the enhanced aggregator returns the ordinary
empty result list, not an error, and the scraper aggregate likewise
returns an empty list. -/
theorem c7_total_failure_counterexample :
    enhancedSearchWebMcps none (.error ()) [.error (), .error (), .error ()] 20
      = .ok []
    ∧ scraperSearchWebMcps [.error (), .error ()] "query" 50 = [] := ⟨rfl, rfl⟩

/-- Claim C7 (amended): the aggregate search never propagates an
error in any failure combination — its catch-all handler degrades
everything to a result list, which is empty in the total-failure,
no-cache case; the scraper-level aggregate returns the empty list when
every platform task failed. -/
theorem c7_no_error_propagation :
    (∀ (cached : Option (List MCPSearchResult))
        (scrape : Except Unit (List (ScrapedMCP × Except Unit JVal)))
        (api : List (Except Unit (List MCPSearchResult))) (limit : Nat),
      ∃ l, enhancedSearchWebMcps cached scrape api limit = Except.ok l)
    ∧ (∀ (api : List (Except Unit (List MCPSearchResult))) (limit : Nat),
        (∀ o ∈ api, o = .error ()) →
        enhancedSearchWebMcps none (.error ()) api limit = .ok [])
    ∧ (∀ (outs : List (Except Unit (List ScrapedMCP))) (query : String) (n : Nat),
        (∀ o ∈ outs, o = .error ()) → scraperSearchWebMcps outs query n = []) := by
  refine ⟨?_, ?_, ?_⟩
  · intro cached scrape api limit
    cases cached with
    | none =>
      cases h : pipelineEnhanced scrape api limit with
      | ok l => exact ⟨l, by simp [enhancedSearchWebMcps, h]⟩
      | error e => exact ⟨[], by simp [enhancedSearchWebMcps, h]⟩
    | some l =>
      cases l with
      | nil =>
        cases h : pipelineEnhanced scrape api limit with
        | ok l2 => exact ⟨l2, by simp [enhancedSearchWebMcps, h]⟩
        | error e => exact ⟨[], by simp [enhancedSearchWebMcps, h]⟩
      | cons x xs => exact ⟨x :: xs, rfl⟩
  · intro api limit _
    rfl
  · intro outs query n h
    unfold scraperSearchWebMcps
    rw [combineGathered_all_error outs h]
    simp [webDedup, dedupAux, rankResults, sortDescBy]

/-- Claim C7 witness: the amended theorem at one-element all-failed
adapter outcome lists. -/
theorem c7_no_error_propagation_witness :
    enhancedSearchWebMcps none (.error ()) [.error ()] 5 = .ok []
    ∧ scraperSearchWebMcps [.error ()] "q" 5 = [] :=
  ⟨c7_no_error_propagation.2.1 [.error ()] 5
      (fun _ ho => List.mem_singleton.mp ho),
   c7_no_error_propagation.2.2 [.error ()] "q" 5
      (fun _ ho => List.mem_singleton.mp ho)⟩

/-- Claim C8 as stated is false at the boundary: a get issued at
exactly `created_at + ttl` (here 0 + 3600) returns absent, while the
claim promises the stored list for every instant at or before
`created_at + ttl`. -/
theorem c8_boundary_counterexample :
    (getCachedResults (cacheResults [] "k" [sampleResult] 0 3600) "k" 3600).1
      = none := rfl

/-- Claim C8 (amended): a stored entry is returned iff the lookup time
is strictly before `created_at + ttl`; otherwise the lookup reports
absent and lazily evicts the entry.  The SQLite freshness test of the
endpoint has the same strict boundary with its fixed one-hour ttl, and
the scenario-D instant `created_at + 3601` indeed misses. -/
theorem c8_cache_expiry :
    (∀ (cache : List (String × CacheEntry)) (key : String)
        (data : List MCPSearchResult) (c t now : Int),
      ((getCachedResults (cacheResults cache key data c t) key now).1
        = if now < c + t then some data else none)
      ∧ ((getCachedResults (cacheResults cache key data c t) key now).2.find?
          (fun p => decide (p.1 = key))
        = if now < c + t then some (key, ⟨data, c + t⟩) else none)
      ∧ sqliteCacheFresh c now = decide (now < c + 3600))
    ∧ (getCachedResults (cacheResults [] "k" [sampleResult] 0 3600) "k" 3601).1
      = none := by
  constructor
  · intro cache key data c t now
    refine ⟨?_, ?_, ?_⟩
    · simp only [cacheResults, getCachedResults]
      rw [List.find?_cons_of_pos _ (by simp)]
      by_cases hc : now < c + t <;> simp [hc]
    · by_cases hc : now < c + t
      · have h1 : getCachedResults (cacheResults cache key data c t) key now
            = (some data, cacheResults cache key data c t) := by
          simp only [cacheResults, getCachedResults]
          rw [List.find?_cons_of_pos _ (by simp)]
          exact if_pos hc
        rw [h1, if_pos hc]
        simp only [cacheResults]
        rw [List.find?_cons_of_pos _ (by simp)]
      · have h1 : getCachedResults (cacheResults cache key data c t) key now
            = (none, (cacheResults cache key data c t).filter (fun q => q.1 ≠ key)) := by
          simp only [cacheResults, getCachedResults]
          rw [List.find?_cons_of_pos _ (by simp)]
          exact if_neg hc
        rw [h1, if_neg hc]
        simp only [cacheResults, List.filter_cons]
        rw [if_neg (by simp)]
        exact find?_filter_ne_none (cache.filter (fun q => q.1 ≠ key)) key
    · exact decide_eq_decide.mpr (by omega)
  · rfl

/-- Claim C9: the scorers never return below the 0.5 base: every
signal adds a non-negative increment and the clamp is an upper clamp
only. -/
theorem c9_score_at_least_half :
    (∀ (pd : Option JVal) (url title description : String),
      1/2 ≤ webCalcConfidenceScore pd url title description)
    ∧ (∀ (schema : JVal) (stars : Int) (fileName : String) (q : ℚ),
      enhCalcConfidenceScore schema stars fileName = some q → 1/2 ≤ q) :=
  ⟨fun pd url title description => webCalc_ge_half pd url title description,
   fun schema stars fileName q h => (enhCalc_bounds schema stars fileName q h).1⟩

/-- Claim C9 witness: the enhanced scorer value on the weather
document, 3/5, is at least the base 1/2. -/
theorem c9_score_at_least_half_witness : (1/2 : ℚ) ≤ 3/5 :=
  c9_score_at_least_half.2 weatherDoc 0 "" (3/5) (by with_unfolding_all decide)

/-- Claim C10: when the parsed mapping has an explicit `domain` key,
the web-scraper domain extraction returns that value verbatim, never
consulting the keyword table — so the result is not confined to the
fixed vocabulary. -/
theorem c10_domain_override (fields : JObj) (v : JVal)
    (h : jGet fields "domain" = some v) :
    extractDomainFromContent (some (.obj fields)) = v := by
  simp [extractDomainFromContent, h]

/-- Claim C10 witness: a document whose name matches the weather
keywords but whose `domain` field holds a string outside the fixed
vocabulary; the extractor returns that string verbatim. -/
theorem c10_domain_override_witness :
    extractDomainFromContent (some (.obj (.ofList
      [("domain", JVal.str "totally custom domain"),
       ("name", JVal.str "weather forecast")])))
      = JVal.str "totally custom domain" :=
  c10_domain_override _ _ rfl
